import Mathlib

/-!
Verification development for the libanemo RISC-V simulator library.

Each C++ component relevant to the checked claims is shallowly embedded:
machine words are `Nat` values reduced modulo `2 ^ w` (with the modulus
written out wherever C++ unsigned arithmetic wraps), signed arithmetic goes
through explicit two's-complement conversions to `Int`, fallible operations
return `Option`, and stateful member functions become pure Lean functions
from the object state (plus arguments) to the new state (plus results).
C++ `union` payloads of the staged `exec_result_t` record are flattened into
one structure; only the fields of the variant selected by `type` are
meaningful, exactly as in the source.
-/

/-! ## Two's-complement helpers (C++ integer conversions) -/

/-- Interpret the low `w` bits of `v` as a signed two's-complement value
(the C++ cast from an unsigned word to the signed type of the same width).
`v` is expected to be `< 2 ^ w`. -/
def toSigned (w v : Nat) : Int :=
  if v < 2 ^ (w - 1) then (v : Int) else (v : Int) - 2 ^ w

/-- The `w`-bit unsigned bit pattern of an integer (the C++ conversion from a
signed value back to the unsigned word type, which wraps modulo `2 ^ w`). -/
def ofIntW (w : Nat) (i : Int) : Nat :=
  (i % (2 ^ w : Nat)).toNat

/-- `C++ int32_t` arithmetic shift right of a 32-bit pattern: sign-extend the
pattern to 64 bits, shift logically, and truncate back to 32 bits. -/
def sra32 (x k : Nat) : Nat :=
  ((x + (if 2 ^ 31 ≤ x % 2 ^ 32 then (2 ^ 64 - 2 ^ 32) else 0)) >>> k) &&& (2 ^ 32 - 1)

theorem ofIntW_toSigned (w v : Nat) (hv : v < 2 ^ w) :
    ofIntW w (toSigned w v) = v := by
  unfold ofIntW toSigned
  split
  · rw [Int.emod_eq_of_lt (by exact_mod_cast Nat.zero_le v) (by exact_mod_cast hv)]
    simp
  · have h2 : (0 : Int) < (2 ^ w : Nat) := by positivity
    have : ((v : Int) - 2 ^ w) % (2 ^ w : Nat) = (v : Int) % (2 ^ w : Nat) := by
      push_cast
      simp [Int.sub_emod]
    rw [this, Int.emod_eq_of_lt (by exact_mod_cast Nat.zero_le v) (by exact_mod_cast hv)]
    simp

/-! ## `libvio/width.hh` — access widths -/

/-- `libvio::width_t`: the four legal access widths, carrying their byte count. -/
inductive width_t where
  | byte
  | half
  | word
  | dword
  deriving DecidableEq, Repr, Inhabited

/-- The numeric value of a `width_t` (its byte count), as in the C++ enum. -/
def width_t.bytes : width_t → Nat
  | .byte => 1
  | .half => 2
  | .word => 4
  | .dword => 8

/-- `libvio::zero_truncate`: keep the low `8 * width` bits of a word. -/
def zero_truncate (value : Nat) (width : width_t) : Nat :=
  value &&& (2 ^ (8 * width.bytes) - 1)

/-- `libvio::sign_extend` for a `w`-bit word type: reinterpret the low
`8 * width` bits as signed and widen to `w` bits.  Widths at least as wide
as the word type leave the value unchanged, as in the C++ specializations. -/
def sign_extend (w : Nat) (value : Nat) (width : width_t) : Nat :=
  if 8 * width.bytes < w then
    ofIntW w (toSigned (8 * width.bytes) (value &&& (2 ^ (8 * width.bytes) - 1)))
  else value

/-! ## `libvio/ringbuffer.hh` — the bounded overwrite-oldest ring buffer

The C++ class owns a raw array of `max_size` cells plus two monotonically
increasing indices.  The array is a `List` of length `max_size`; indexing is
`buffer[index % max_size]` exactly as in the source. -/

structure ringbuffer (α : Type) where
  buffer : List α
  max_size : Nat
  first_index : Nat
  last_index : Nat
  deriving Repr, DecidableEq

namespace ringbuffer

variable {α : Type}

/-- The constructor `ringbuffer(n)`: storage of `n` default cells, both
indices zero. -/
def init [Inhabited α] (n : Nat) : ringbuffer α :=
  { buffer := List.replicate n default, max_size := n, first_index := 0, last_index := 0 }

/-- `firstindex()` accessor. -/
def firstindex (rb : ringbuffer α) : Nat := rb.first_index

/-- `lastindex()` accessor. -/
def lastindex (rb : ringbuffer α) : Nat := rb.last_index

/-- `operator[](index)`: `buffer[index % max_size]`. -/
def get [Inhabited α] (rb : ringbuffer α) (index : Nat) : α :=
  rb.buffer.getD (index % rb.max_size) default

/-- `push_back(value)`: write at `last_index % max_size`, bump `last_index`,
then advance `first_index` when the distance exceeds the capacity. -/
def push_back (rb : ringbuffer α) (value : α) : ringbuffer α :=
  let buffer := rb.buffer.set (rb.last_index % rb.max_size) value
  let last_index := rb.last_index + 1
  { rb with
    buffer := buffer
    last_index := last_index
    first_index :=
      if last_index - rb.first_index > rb.max_size then last_index - rb.max_size
      else rb.first_index }

/-- `pop_back()`: drop the last element when the buffer is non-empty. -/
def pop_back (rb : ringbuffer α) : ringbuffer α :=
  { rb with
    last_index := if rb.last_index > rb.first_index then rb.last_index - 1 else rb.first_index }

/-- `size()`: `last_index - first_index`. -/
def size (rb : ringbuffer α) : Nat := rb.last_index - rb.first_index

/-- `capacity()`. -/
def capacity (rb : ringbuffer α) : Nat := rb.max_size

/-- `empty()`. -/
def is_empty (rb : ringbuffer α) : Bool := rb.first_index == rb.last_index

/-- One mutating operation performed on a ring buffer. -/
inductive rbop (α : Type) where
  | push (value : α)
  | pop

/-- Apply a sequence of `push_back` / `pop_back` operations. -/
def run (rb : ringbuffer α) : List (rbop α) → ringbuffer α
  | [] => rb
  | .push v :: rest => run (rb.push_back v) rest
  | .pop :: rest => run rb.pop_back rest

theorem size_push_back_le (rb : ringbuffer α) (v : α) (h : rb.size ≤ rb.max_size) :
    (rb.push_back v).size ≤ rb.max_size := by
  unfold push_back size at *
  dsimp only
  split <;> omega

theorem size_pop_back_le (rb : ringbuffer α) (h : rb.size ≤ rb.max_size) :
    rb.pop_back.size ≤ rb.max_size := by
  unfold pop_back size at *
  dsimp only
  split <;> omega

theorem size_run_le (rb : ringbuffer α) (ops : List (rbop α)) (h : rb.size ≤ rb.max_size) :
    (rb.run ops).size ≤ rb.max_size := by
  induction ops generalizing rb with
  | nil => exact h
  | cons op rest ih =>
    cases op with
    | push v =>
      have := size_push_back_le rb v h
      simpa [run] using ih (rb.push_back v) (by simpa [push_back] using this)
    | pop =>
      have := size_pop_back_le rb h
      simpa [run] using ih rb.pop_back (by simpa [pop_back] using this)

end ringbuffer

/-- Helper for later claims: push a whole list of entries, oldest first. -/
def ringbuffer.pushAll {α : Type} (rb : ringbuffer α) (es : List α) : ringbuffer α :=
  es.foldl ringbuffer.push_back rb

namespace ringbuffer

variable {α : Type}

theorem max_size_push_back (rb : ringbuffer α) (v : α) :
    (rb.push_back v).max_size = rb.max_size := rfl

theorem last_index_push_back (rb : ringbuffer α) (v : α) :
    (rb.push_back v).last_index = rb.last_index + 1 := rfl

theorem buffer_length_push_back (rb : ringbuffer α) (v : α) :
    (rb.push_back v).buffer.length = rb.buffer.length := by
  simp [push_back]

theorem first_index_push_back (rb : ringbuffer α) (v : α) :
    (rb.push_back v).first_index =
      max rb.first_index (rb.last_index + 1 - rb.max_size) := by
  simp only [push_back]
  split <;> omega

theorem max_size_pushAll (rb : ringbuffer α) (es : List α) :
    (rb.pushAll es).max_size = rb.max_size := by
  induction es generalizing rb with
  | nil => rfl
  | cons e es ih => simpa [pushAll, List.foldl] using ih (rb.push_back e)

theorem last_index_pushAll (rb : ringbuffer α) (es : List α) :
    (rb.pushAll es).last_index = rb.last_index + es.length := by
  induction es generalizing rb with
  | nil => rfl
  | cons e es ih =>
    have := ih (rb.push_back e)
    simp only [pushAll, List.foldl] at this ⊢
    simp [this, last_index_push_back]
    omega

theorem buffer_length_pushAll (rb : ringbuffer α) (es : List α) :
    (rb.pushAll es).buffer.length = rb.buffer.length := by
  induction es generalizing rb with
  | nil => rfl
  | cons e es ih =>
    have := ih (rb.push_back e)
    simp only [pushAll, List.foldl] at this ⊢
    simp [this, buffer_length_push_back]

theorem first_index_pushAll_le (rb : ringbuffer α) (es : List α) :
    (rb.pushAll es).first_index ≤
      max rb.first_index (rb.last_index + es.length - rb.max_size) := by
  induction es generalizing rb with
  | nil => simp [pushAll]
  | cons e es ih =>
    have h := ih (rb.push_back e)
    simp only [pushAll, List.foldl] at h ⊢
    rw [first_index_push_back, last_index_push_back, max_size_push_back] at h
    refine h.trans ?_
    simp only [List.length_cons]
    omega

theorem get_push_back_ne [Inhabited α] (rb : ringbuffer α) (v : α) (k : Nat)
    (h : rb.last_index % rb.max_size ≠ k % rb.max_size) :
    (rb.push_back v).get k = rb.get k := by
  simp only [get, push_back]
  rw [List.getD_eq_getElem?_getD, List.getElem?_set_ne h, ← List.getD_eq_getElem?_getD]

theorem get_pushAll_ne [Inhabited α] (rb : ringbuffer α) (es : List α) (k : Nat)
    (h : ∀ i, i < es.length → (rb.last_index + i) % rb.max_size ≠ k % rb.max_size) :
    (rb.pushAll es).get k = rb.get k := by
  induction es generalizing rb with
  | nil => rfl
  | cons e es ih =>
    have h0 := h 0 (by simp)
    simp only [Nat.add_zero] at h0
    have hrest : ∀ i, i < es.length →
        ((rb.push_back e).last_index + i) % (rb.push_back e).max_size ≠
          k % (rb.push_back e).max_size := by
      intro i hi
      rw [last_index_push_back, max_size_push_back]
      have heq : rb.last_index + 1 + i = rb.last_index + (i + 1) := by omega
      rw [heq]
      exact h (i + 1) (by simpa using Nat.succ_lt_succ hi)
    calc (rb.pushAll (e :: es)).get k
        = ((rb.push_back e).pushAll es).get k := rfl
      _ = (rb.push_back e).get k := ih (rb.push_back e) hrest
      _ = rb.get k := get_push_back_ne rb e k h0

theorem get_push_back_last [Inhabited α] (rb : ringbuffer α) (v : α)
    (hlen : rb.buffer.length = rb.max_size) (hm : 0 < rb.max_size) :
    (rb.push_back v).get rb.last_index = v := by
  have hlt : rb.last_index % rb.max_size < rb.buffer.length := by
    rw [hlen]; exact Nat.mod_lt _ hm
  simp only [get, push_back]
  rw [List.getD_eq_getElem?_getD, List.getElem?_set_self hlt]
  rfl

end ringbuffer

/-- **C6.** For a ring buffer of capacity `N`: any sequence of `push_back`
and `pop_back` operations starting from the freshly constructed buffer keeps
`size = last_index - first_index` at most `N`; a `push_back` performed when
`size = N` advances `first_index` by exactly one (overwriting the oldest
element); and pushing six elements `e0..e5` into a capacity-4 buffer yields
`first_index = 2`, `last_index = 6`, `size = 4`, `buffer[2] = e2` and
`buffer[5] = e5`. -/
theorem ringbuffer_size_bound_and_overwrite :
    (∀ (N : Nat) (ops : List (ringbuffer.rbop Nat)),
        ((ringbuffer.init N).run ops).size ≤ N)
    ∧ (∀ (rb : ringbuffer Nat) (v : Nat),
        rb.first_index ≤ rb.last_index → rb.size = rb.max_size →
        (rb.push_back v).first_index = rb.first_index + 1)
    ∧ (∀ e0 e1 e2 e3 e4 e5 : Nat,
        let rb := ((((((ringbuffer.init 4).push_back e0).push_back e1).push_back
          e2).push_back e3).push_back e4).push_back e5
        rb.firstindex = 2 ∧ rb.lastindex = 6 ∧ rb.size = 4 ∧
          rb.get 2 = e2 ∧ rb.get 5 = e5) := by
  refine ⟨?_, ?_, ?_⟩
  · intro N ops
    exact ringbuffer.size_run_le _ ops (by simp [ringbuffer.init, ringbuffer.size])
  · intro rb v hwf hfull
    rw [ringbuffer.first_index_push_back]
    unfold ringbuffer.size at hfull
    omega
  · intro e0 e1 e2 e3 e4 e5
    refine ⟨rfl, rfl, rfl, ?_, ?_⟩ <;>
      simp [ringbuffer.init, ringbuffer.push_back, ringbuffer.get]

/-- Witness for `ringbuffer_size_bound_and_overwrite`: a concrete full
capacity-2 buffer whose `first_index` advances from 0 to 1 on push. -/
theorem ringbuffer_size_bound_and_overwrite_witness :
    ((((ringbuffer.init 2).push_back 7).push_back 8).push_back 9).first_index =
      (((ringbuffer.init 2).push_back 7).push_back 8).first_index + 1 :=
  ringbuffer_size_bound_and_overwrite.2.1
    (((ringbuffer.init 2).push_back 7).push_back 8) 9 (by decide) (by decide)

/-! ## `libvio/bus.cc` — the IO dispatcher's read-request memoization

`io_dispatcher::request_read` decodes an address to the first owning device,
invokes its frontend once, records `(addr, width, result)` in the read
request ring buffer keyed by `req_no`, and serves every in-window repeat of
the same `req_no` from the ring without touching any device.  The embedding
returns, besides the C++ return value and the new dispatcher state, the
number of frontend `read` invocations the call performed (0 or 1), so that
"the device is not consulted" is a provable statement. -/

/-- One cached read request: the `(addr, width, data)` tuple pushed by
`request_read`. -/
structure read_req_entry where
  addr : Nat
  width : width_t
  data : Option Nat
  deriving DecidableEq, Repr, Inhabited

/-- `libvio::mmio_device_def`, restricted to what `request_read` consults:
the address window and the frontend's `read` entry point. -/
structure mmio_device_def where
  addr_begin : Nat
  byte_span : Nat
  frontend_read : Nat → width_t → Option Nat

/-- The `io_dispatcher` state touched by `request_read`: the device list and
the read request ring buffer. -/
structure io_dispatcher where
  devices : List mmio_device_def
  read_request_buffer : ringbuffer read_req_entry

/-- `io_dispatcher::request_read(addr, width, req_no)`.  Result components:
the returned `option`, the new dispatcher state, and how many frontend
`read` calls were made. -/
def io_dispatcher.request_read (dp : io_dispatcher) (addr : Nat) (width : width_t)
    (req_no : Nat) : Option Nat × io_dispatcher × Nat :=
  if req_no < dp.read_request_buffer.firstindex then
    (none, dp, 0)
  else if req_no < dp.read_request_buffer.lastindex then
    let cached := dp.read_request_buffer.get req_no
    if cached.addr = addr ∧ cached.width = width then (cached.data, dp, 0)
    else (none, dp, 0)
  else if req_no = dp.read_request_buffer.lastindex then
    match dp.devices.find?
        (fun dev => decide (dev.addr_begin ≤ addr ∧ addr < dev.addr_begin + dev.byte_span)) with
    | some dev =>
      let req_data := dev.frontend_read (addr - dev.addr_begin) width
      (req_data,
       { dp with read_request_buffer :=
          dp.read_request_buffer.push_back ⟨addr, width, req_data⟩ }, 1)
    | none =>
      (none,
       { dp with read_request_buffer :=
          dp.read_request_buffer.push_back ⟨addr, width, none⟩ }, 0)
  else
    (none, dp, 0)

/-- A later dispatcher state: the same devices, with further read requests
recorded after the current ones. -/
def io_dispatcher.record_more (dp : io_dispatcher) (es : List read_req_entry) :
    io_dispatcher :=
  { dp with read_request_buffer := dp.read_request_buffer.pushAll es }

/-- **C1, counterexample.** With a capacity-1 request ring and a device
answering `0x41` at address 0, the first read with `req_no = 0` returns
`some 0x41`, but after one further recorded request has evicted the entry
(`req_no = 0` drops below `first_index`), a later read with the same
`req_no = 0` and the same `(addr, width)` returns `none` — not the identical
`option` result.  This refutes the unconditional "every later read" part of
the claim. -/
theorem request_read_later_read_differs :
    let dev : mmio_device_def := ⟨0, 8, fun _ _ => some 0x41⟩
    let dp0 : io_dispatcher := ⟨[dev], ringbuffer.init 1⟩
    let step0 := dp0.request_read 0 .byte 0
    let step1 := step0.2.1.request_read 4 .byte 1
    let step2 := step1.2.1.request_read 0 .byte 0
    step0.1 = some 0x41 ∧ step2.1 = none ∧ step2.1 ≠ step0.1 := by
  refine ⟨rfl, rfl, by decide⟩

/-- **C1, amended.** For a well-formed dispatcher whose read ring has
positive capacity: the first read issued with `req_no = k` equal to the read
ring's `last_index` and an address owned by a device invokes that device's
frontend exactly once and records `(addr, width, result)` in the ring at
index `k`; and every later read with the same `k` and the same
`(addr, width)` — in particular one issued by a different agent — returns
the identical `option` result with no device consulted, as long as fewer
than `capacity` further requests have been recorded since (so that entry `k`
has not been evicted from the ring). -/
theorem request_read_memoizes (dp : io_dispatcher) (addr : Nat) (width : width_t)
    (k : Nat) (dev : mmio_device_def)
    (hlen : dp.read_request_buffer.buffer.length = dp.read_request_buffer.max_size)
    (hwf : dp.read_request_buffer.first_index ≤ dp.read_request_buffer.last_index)
    (hm : 0 < dp.read_request_buffer.max_size)
    (hk : k = dp.read_request_buffer.last_index)
    (hdev : dp.devices.find?
      (fun d => decide (d.addr_begin ≤ addr ∧ addr < d.addr_begin + d.byte_span)) = some dev) :
    (dp.request_read addr width k).1 = dev.frontend_read (addr - dev.addr_begin) width
    ∧ (dp.request_read addr width k).2.2 = 1
    ∧ (dp.request_read addr width k).2.1.read_request_buffer.get k =
        ⟨addr, width, dev.frontend_read (addr - dev.addr_begin) width⟩
    ∧ ∀ es : List read_req_entry, es.length < dp.read_request_buffer.max_size →
        ((dp.request_read addr width k).2.1.record_more es).request_read addr width k =
          (dev.frontend_read (addr - dev.addr_begin) width,
           (dp.request_read addr width k).2.1.record_more es, 0) := by
  have hnotlt1 : ¬ k < dp.read_request_buffer.firstindex := by
    simp only [ringbuffer.firstindex]; omega
  have hnotlt2 : ¬ k < dp.read_request_buffer.lastindex := by
    simp only [ringbuffer.lastindex]; omega
  have hstep : dp.request_read addr width k =
      (dev.frontend_read (addr - dev.addr_begin) width,
       { dp with
          read_request_buffer :=
            dp.read_request_buffer.push_back
              ⟨addr, width, dev.frontend_read (addr - dev.addr_begin) width⟩ },
       1) := by
    unfold io_dispatcher.request_read
    rw [if_neg hnotlt1, if_neg hnotlt2, if_pos (by simp [ringbuffer.lastindex, hk]), hdev]
  set r := dev.frontend_read (addr - dev.addr_begin) width with hr
  set rb1 := dp.read_request_buffer.push_back ⟨addr, width, r⟩ with hrb1
  have hget1 : rb1.get k = ⟨addr, width, r⟩ := by
    rw [hrb1, hk]
    exact ringbuffer.get_push_back_last _ _ hlen hm
  refine ⟨by rw [hstep], by rw [hstep], by rw [hstep]; exact hget1, ?_⟩
  intro es hes
  rw [hstep]
  simp only [io_dispatcher.record_more]
  set rb2 := rb1.pushAll es with hrb2
  have hmax2 : rb2.max_size = dp.read_request_buffer.max_size := by
    rw [hrb2, ringbuffer.max_size_pushAll, hrb1, ringbuffer.max_size_push_back]
  have hlast2 : rb2.last_index = k + 1 + es.length := by
    rw [hrb2, ringbuffer.last_index_pushAll, hrb1, ringbuffer.last_index_push_back, hk]
  have hfirst2 : rb2.first_index ≤ k := by
    have h1 := ringbuffer.first_index_pushAll_le rb1 es
    rw [← hrb2] at h1
    have h2 := ringbuffer.first_index_push_back dp.read_request_buffer ⟨addr, width, r⟩
    rw [← hrb1] at h2
    have h3 : rb1.last_index = k + 1 := by
      rw [hrb1, ringbuffer.last_index_push_back, hk]
    have h4 : rb1.max_size = dp.read_request_buffer.max_size := by
      rw [hrb1, ringbuffer.max_size_push_back]
    omega
  have hget2 : rb2.get k = ⟨addr, width, r⟩ := by
    rw [hrb2]
    rw [ringbuffer.get_pushAll_ne rb1 es k ?_]
    · exact hget1
    · intro i hi
      have h3 : rb1.last_index = k + 1 := by
        rw [hrb1, ringbuffer.last_index_push_back, hk]
      have h4 : rb1.max_size = dp.read_request_buffer.max_size := by
        rw [hrb1, ringbuffer.max_size_push_back]
      rw [h3, h4]
      intro hcontra
      have heq : k + 1 + i = k + (i + 1) := by omega
      rw [heq] at hcontra
      have h5 : (i + 1) % dp.read_request_buffer.max_size = 0 := by
        have h6 : k + (i + 1) ≡ k + 0 [MOD dp.read_request_buffer.max_size] := by
          simpa [Nat.ModEq] using hcontra
        have h7 := Nat.ModEq.add_left_cancel' k h6
        simpa [Nat.ModEq] using h7
      have h8 : dp.read_request_buffer.max_size ∣ i + 1 :=
        Nat.dvd_of_mod_eq_zero h5
      have h9 := Nat.le_of_dvd (by omega) h8
      omega
  unfold io_dispatcher.request_read
  simp only [ringbuffer.firstindex, ringbuffer.lastindex]
  rw [if_neg (by omega), if_pos (by omega)]
  rw [hget2]
  simp

/-- Witness for `request_read_memoizes`: a concrete dispatcher with one
device and a capacity-2 ring; after the first read at `req_no = 0` and one
further recorded request, the repeat read at `req_no = 0` still returns
`some 0x41` with zero device invocations. -/
theorem request_read_memoizes_witness :
    let dev : mmio_device_def := ⟨0, 8, fun _ _ => some 0x41⟩
    let dp0 : io_dispatcher := ⟨[dev], ringbuffer.init 2⟩
    ((dp0.request_read 0 .byte 0).2.1.record_more [⟨4, .byte, none⟩]).request_read 0 .byte 0 =
      (some 0x41, (dp0.request_read 0 .byte 0).2.1.record_more [⟨4, .byte, none⟩], 0) := by
  intro dev dp0
  exact (request_read_memoizes dp0 0 .byte 0 dev rfl (by decide) (by decide) rfl rfl).2.2.2
    [⟨4, .byte, none⟩] (by decide)

/-! ## `libcpu/riscv/riscv.hh` — privilege levels, dispatch tags, decode record -/

/-- `libcpu::riscv::priv_level_t`. -/
inductive priv_level_t where
  | u
  | s
  | h
  | m
  deriving DecidableEq, Repr, Inhabited

/-- The numeric value of a privilege level, as in the C++ enum. -/
def priv_level_t.toNat : priv_level_t → Nat
  | .u => 0
  | .s => 1
  | .h => 2
  | .m => 3

/-- The privilege level encoded by a 2-bit field (the C++
`static_cast<priv_level_t>`). -/
def priv_level_t.ofBits : Nat → priv_level_t
  | 0 => .u
  | 1 => .s
  | 2 => .h
  | _ => .m

/-- `libcpu::riscv::dispatch_t`: the dispatchable instruction tags. -/
inductive dispatch_t where
  | add | sub | sll | slt | sltu | xor_ | srl | sra | or_ | and_
  | addi | slti | sltiu | xori | ori | andi | slli | srli | srai
  | lb | lh | lw | lbu | lhu | sb | sh | sw
  | jal | jalr | beq | bne | blt | bge | bltu | bgeu
  | lui | auipc
  | mul | mulh | mulhsu | mulhu | div | divu | rem | remu
  | ecall | ebreak | mret | sret
  | lwu | ld | sd | addiw | slliw | srliw | sraiw
  | addw | subw | sllw | srlw | sraw | mulw | divw | divuw | remw | remuw
  | csrrw | csrrs | csrrc | csrrwi | csrrsi | csrrci
  | invalid
  deriving DecidableEq, Repr, Inhabited

/-- `libcpu::riscv::decode_t`: the decoded-instruction record.  `imm` is the
32-bit two's-complement bit pattern of the C++ `int32_t` field. -/
structure decode_t where
  imm : Nat
  dispatch : dispatch_t
  rs1 : Nat
  rs2 : Nat
  rd : Nat
  deriving DecidableEq, Repr, Inhabited

/-! ## `libcpu/riscv/user_core.hh` — the decoder

The decoder is a priority-ordered list of `(pattern, mask, encoding, tag)`
rules; the first rule with `(instr ^ pattern) & mask == 0` wins, and its
encoding type selects the immediate and register-field extractors (the
`imm_*`/`rs1_*`/`rs2_*`/`rd_*` macros).  When no rule matches, only the
dispatch tag is set to `invalid` and the other `decode` fields of the union
keep their previous contents, exactly as `RISCV_INSTR_PAT_END` does. -/

/-- The six RISC-V encoding types used by the decoder macros. -/
inductive enc_t where
  | r | i | s | b | u | j
  deriving DecidableEq, Repr

/-- The immediate extractor of each encoding (`imm_r` .. `imm_j`), producing
the 32-bit pattern of the C++ `int32_t` immediate. -/
def imm_of (e : enc_t) (instr : Nat) : Nat :=
  match e with
  | .r => 0
  | .i => sra32 instr 20
  | .s => sra32 (instr &&& 0xfe000000) 20 ||| ((instr >>> 7) &&& 0x1f)
  | .b => sra32 (instr &&& 0x80000000) 19 ||| ((instr &&& 0x80) <<< 4) |||
          ((instr >>> 20) &&& 0x7e0) ||| ((instr >>> 7) &&& 0x1e)
  | .u => instr &&& 0xfffff000
  | .j => sra32 (instr &&& 0x80000000) 11 ||| (instr &&& 0xff000) |||
          ((instr >>> 9) &&& 0x800) ||| ((instr >>> 20) &&& 0x7fe)

/-- The `rs1` extractor of each encoding. -/
def rs1_of (e : enc_t) (instr : Nat) : Nat :=
  match e with
  | .r | .i | .s | .b => (instr >>> 15) &&& 0x1f
  | .u | .j => 0

/-- The `rs2` extractor of each encoding. -/
def rs2_of (e : enc_t) (instr : Nat) : Nat :=
  match e with
  | .r | .s | .b => (instr >>> 20) &&& 0x1f
  | .i | .u | .j => 0

/-- The `rd` extractor of each encoding. -/
def rd_of (e : enc_t) (instr : Nat) : Nat :=
  match e with
  | .r | .i | .u | .j => (instr >>> 7) &&& 0x1f
  | .s | .b => 0

/-- One `RISCV_INSTR_PAT(pattern, mask, encoding, operation)` rule. -/
structure instr_rule where
  pattern : Nat
  mask : Nat
  enc : enc_t
  tag : dispatch_t

/-- The decoder's rule list, in the exact priority order of
`user_core::decode`. -/
def instr_rules : List instr_rule := [
  ⟨0b00000000000000000000000000110111, 0b00000000000000000000000001111111, .u, .lui⟩,
  ⟨0b00000000000000000000000000010111, 0b00000000000000000000000001111111, .u, .auipc⟩,
  ⟨0b00000000000000000000000001101111, 0b00000000000000000000000001111111, .j, .jal⟩,
  ⟨0b00000000000000000000000001100111, 0b00000000000000000111000001111111, .i, .jalr⟩,
  ⟨0b00000000000000000000000001100011, 0b00000000000000000111000001111111, .b, .beq⟩,
  ⟨0b00000000000000000001000001100011, 0b00000000000000000111000001111111, .b, .bne⟩,
  ⟨0b00000000000000000100000001100011, 0b00000000000000000111000001111111, .b, .blt⟩,
  ⟨0b00000000000000000101000001100011, 0b00000000000000000111000001111111, .b, .bge⟩,
  ⟨0b00000000000000000110000001100011, 0b00000000000000000111000001111111, .b, .bltu⟩,
  ⟨0b00000000000000000111000001100011, 0b00000000000000000111000001111111, .b, .bgeu⟩,
  ⟨0b00000000000000000000000000000011, 0b00000000000000000111000001111111, .i, .lb⟩,
  ⟨0b00000000000000000001000000000011, 0b00000000000000000111000001111111, .i, .lh⟩,
  ⟨0b00000000000000000010000000000011, 0b00000000000000000111000001111111, .i, .lw⟩,
  ⟨0b00000000000000000100000000000011, 0b00000000000000000111000001111111, .i, .lbu⟩,
  ⟨0b00000000000000000101000000000011, 0b00000000000000000111000001111111, .i, .lhu⟩,
  ⟨0b00000000000000000000000000100011, 0b00000000000000000111000001111111, .s, .sb⟩,
  ⟨0b00000000000000000001000000100011, 0b00000000000000000111000001111111, .s, .sh⟩,
  ⟨0b00000000000000000010000000100011, 0b00000000000000000111000001111111, .s, .sw⟩,
  ⟨0b00000000000000000000000000010011, 0b00000000000000000111000001111111, .i, .addi⟩,
  ⟨0b00000000000000000010000000010011, 0b00000000000000000111000001111111, .i, .slti⟩,
  ⟨0b00000000000000000011000000010011, 0b00000000000000000111000001111111, .i, .sltiu⟩,
  ⟨0b00000000000000000100000000010011, 0b00000000000000000111000001111111, .i, .xori⟩,
  ⟨0b00000000000000000110000000010011, 0b00000000000000000111000001111111, .i, .ori⟩,
  ⟨0b00000000000000000111000000010011, 0b00000000000000000111000001111111, .i, .andi⟩,
  ⟨0b00000000000000000001000000010011, 0b11111100000000000111000001111111, .i, .slli⟩,
  ⟨0b00000000000000000101000000010011, 0b11111100000000000111000001111111, .i, .srli⟩,
  ⟨0b01000000000000000101000000010011, 0b11111100000000000111000001111111, .i, .srai⟩,
  ⟨0b00000000000000000000000000110011, 0b11111110000000000111000001111111, .r, .add⟩,
  ⟨0b01000000000000000000000000110011, 0b11111110000000000111000001111111, .r, .sub⟩,
  ⟨0b00000000000000000001000000110011, 0b11111110000000000111000001111111, .r, .sll⟩,
  ⟨0b00000000000000000010000000110011, 0b11111110000000000111000001111111, .r, .slt⟩,
  ⟨0b00000000000000000011000000110011, 0b11111110000000000111000001111111, .r, .sltu⟩,
  ⟨0b00000000000000000100000000110011, 0b11111110000000000111000001111111, .r, .xor_⟩,
  ⟨0b00000000000000000101000000110011, 0b11111110000000000111000001111111, .r, .srl⟩,
  ⟨0b01000000000000000101000000110011, 0b11111110000000000111000001111111, .r, .sra⟩,
  ⟨0b00000000000000000110000000110011, 0b11111110000000000111000001111111, .r, .or_⟩,
  ⟨0b00000000000000000111000000110011, 0b11111110000000000111000001111111, .r, .and_⟩,
  ⟨0b00000010000000000000000000110011, 0b11111110000000000111000001111111, .r, .mul⟩,
  ⟨0b00000010000000000001000000110011, 0b11111110000000000111000001111111, .r, .mulh⟩,
  ⟨0b00000010000000000010000000110011, 0b11111110000000000111000001111111, .r, .mulhsu⟩,
  ⟨0b00000010000000000011000000110011, 0b11111110000000000111000001111111, .r, .mulhu⟩,
  ⟨0b00000010000000000100000000110011, 0b11111110000000000111000001111111, .r, .div⟩,
  ⟨0b00000010000000000101000000110011, 0b11111110000000000111000001111111, .r, .divu⟩,
  ⟨0b00000010000000000110000000110011, 0b11111110000000000111000001111111, .r, .rem⟩,
  ⟨0b00000010000000000111000000110011, 0b11111110000000000111000001111111, .r, .remu⟩,
  ⟨0b00000000000000000000000001110011, 0b11111111111111111111111111111111, .r, .ecall⟩,
  ⟨0b00000000000100000000000001110011, 0b11111111111111111111111111111111, .r, .ebreak⟩,
  ⟨0b00110000001000000000000001110011, 0b11111111111111111111111111111111, .r, .mret⟩,
  ⟨0b00010000001000000000000001110011, 0b11111111111111111111111111111111, .r, .sret⟩,
  ⟨0b00000000000000000001000001110011, 0b00000000000000000111000001111111, .i, .csrrw⟩,
  ⟨0b00000000000000000010000001110011, 0b00000000000000000111000001111111, .i, .csrrs⟩,
  ⟨0b00000000000000000011000001110011, 0b00000000000000000111000001111111, .i, .csrrc⟩,
  ⟨0b00000000000000000101000001110011, 0b00000000000000000111000001111111, .i, .csrrwi⟩,
  ⟨0b00000000000000000110000001110011, 0b00000000000000000111000001111111, .i, .csrrsi⟩,
  ⟨0b00000000000000000111000001110011, 0b00000000000000000111000001111111, .i, .csrrci⟩,
  ⟨0b00000000000000000110000000000011, 0b00000000000000000111000001111111, .i, .lwu⟩,
  ⟨0b00000000000000000011000000000011, 0b00000000000000000111000001111111, .i, .ld⟩,
  ⟨0b00000000000000000011000000100011, 0b00000000000000000111000001111111, .s, .sd⟩,
  ⟨0b00000000000000000000000000011011, 0b00000000000000000111000001111111, .i, .addiw⟩,
  ⟨0b00000000000000000001000000011011, 0b11111110000000000111000001111111, .i, .slliw⟩,
  ⟨0b00000000000000000101000000011011, 0b11111110000000000111000001111111, .i, .srliw⟩,
  ⟨0b01000000000000000101000000011011, 0b11111110000000000111000001111111, .i, .sraiw⟩,
  ⟨0b00000000000000000000000000111011, 0b11111110000000000111000001111111, .r, .addw⟩,
  ⟨0b01000000000000000000000000111011, 0b11111110000000000111000001111111, .r, .subw⟩,
  ⟨0b00000000000000000001000000111011, 0b11111110000000000111000001111111, .r, .sllw⟩,
  ⟨0b00000000000000000101000000111011, 0b11111110000000000111000001111111, .r, .srlw⟩,
  ⟨0b01000000000000000101000000111011, 0b11111110000000000111000001111111, .r, .sraw⟩,
  ⟨0b00000010000000000000000000111011, 0b11111110000000000111000001111111, .r, .mulw⟩,
  ⟨0b00000010000000000100000000111011, 0b11111110000000000111000001111111, .r, .divw⟩,
  ⟨0b00000010000000000101000000111011, 0b11111110000000000111000001111111, .r, .divuw⟩,
  ⟨0b00000010000000000110000000111011, 0b11111110000000000111000001111111, .r, .remw⟩,
  ⟨0b00000010000000000111000000111011, 0b11111110000000000111000001111111, .r, .remuw⟩]

/-- `user_core::decode`: first-match rule lookup.  `d0` is the previous
content of the `decode` union member, which the no-match fallback leaves in
place except for the `invalid` dispatch tag.  The op's stage is set to
`decode` on every path. -/
def user_core.decode (d0 : decode_t) (instr : Nat) : decode_t :=
  match instr_rules.find? (fun r => (instr ^^^ r.pattern) &&& r.mask == 0) with
  | some r =>
    { imm := imm_of r.enc instr, dispatch := r.tag,
      rs1 := rs1_of r.enc instr, rs2 := rs2_of r.enc instr, rd := rd_of r.enc instr }
  | none => { d0 with dispatch := .invalid }

theorem user_core.decode_dispatch_irrel (d0 d1 : decode_t) (instr : Nat) :
    (user_core.decode d0 instr).dispatch = (user_core.decode d1 instr).dispatch := by
  unfold user_core.decode
  cases instr_rules.find? (fun r => (instr ^^^ r.pattern) &&& r.mask == 0) <;> rfl

theorem user_core.decode_valid_irrel (d0 d1 : decode_t) (instr : Nat)
    (h : (user_core.decode d0 instr).dispatch ≠ .invalid) :
    user_core.decode d0 instr = user_core.decode d1 instr := by
  unfold user_core.decode at h ⊢
  rcases hf : instr_rules.find? (fun r => (instr ^^^ r.pattern) &&& r.mask == 0) with _ | r
  · rw [hf] at h
    simp at h
  · rw [hf]

/-! ## `libcpu/riscv/decode_cache.hh` — the PC-indexed decode cache

The cache is a vector of `2 ^ offset_bits` lines, each holding a raw
instruction word and its decoded record; line selection is
`(pc & ~(~0 << (offset_bits + shamt))) >> shamt`.  The vector is modelled as
a total function from line index to line. -/

structure decode_cache where
  offset_bits : Nat
  shamt : Nat
  cache : Nat → Nat × decode_t

/-- The `decode_cache` constructor: every line holds raw word 0 and an
all-zero decode record with the `invalid` dispatch. -/
def decode_cache.init (offset_bits shamt : Nat) : decode_cache :=
  { offset_bits := offset_bits, shamt := shamt,
    cache := fun _ => (0, ⟨0, .invalid, 0, 0, 0⟩) }

/-- `decode_cache::decode`: on a hit (`op.instr == cached.first`) reuse the
cached record; on a miss run `user_core::decode` and overwrite the line.
`d0` is the stale content of the op's `decode` union member, exactly as for
`user_core.decode`. -/
def decode_cache.decode (c : decode_cache) (pc instr : Nat) (d0 : decode_t) :
    decode_t × decode_cache :=
  let mask := 2 ^ (c.offset_bits + c.shamt) - 1
  let offset := (pc &&& mask) >>> c.shamt
  let cached := c.cache offset
  if instr = cached.1 then
    (cached.2, c)
  else
    let d := user_core.decode d0 instr
    (d, { c with cache := fun i => if i = offset then (instr, d) else c.cache i })

/-- Run a sequence of fetch records `(pc, instr, stale decode payload)`
through the cache, keeping only the final cache state. -/
def decode_cache.runFetches (c : decode_cache) :
    List (Nat × Nat × decode_t) → decode_cache
  | [] => c
  | (pc, instr, d0) :: rest => decode_cache.runFetches (c.decode pc instr d0).2 rest

/-- The decode-cache line invariant: each line's decode record carries the
dispatch of its raw word, and for valid dispatches it is exactly the
decoder's output on that raw word. -/
def decode_cache.consistent (c : decode_cache) : Prop :=
  ∀ i : Nat,
    (c.cache i).2.dispatch = (user_core.decode default (c.cache i).1).dispatch
    ∧ ((c.cache i).2.dispatch ≠ .invalid →
        (c.cache i).2 = user_core.decode default (c.cache i).1)

theorem user_core.decode_zero_invalid :
    (user_core.decode default 0).dispatch = dispatch_t.invalid := by decide

theorem decode_cache.consistent_init (offset_bits shamt : Nat) :
    (decode_cache.init offset_bits shamt).consistent := by
  intro i
  exact ⟨user_core.decode_zero_invalid.symm, fun h => absurd rfl h⟩

theorem decode_cache.consistent_decode (c : decode_cache) (pc instr : Nat)
    (d0 : decode_t) (hc : c.consistent) :
    (c.decode pc instr d0).2.consistent := by
  unfold decode_cache.decode
  dsimp only
  split
  · exact hc
  · intro i
    dsimp only
    split
    · constructor
      · exact user_core.decode_dispatch_irrel d0 default instr
      · intro hv
        exact user_core.decode_valid_irrel d0 default instr hv
    · exact hc i

theorem decode_cache.decode_agrees (c : decode_cache) (pc instr : Nat)
    (d0 : decode_t) (hc : c.consistent) :
    (c.decode pc instr d0).1.dispatch = (user_core.decode d0 instr).dispatch
    ∧ ((user_core.decode d0 instr).dispatch ≠ .invalid →
        (c.decode pc instr d0).1 = user_core.decode d0 instr) := by
  unfold decode_cache.decode
  dsimp only
  split
  · rename_i hhit
    obtain ⟨h1, h2⟩ := hc ((pc &&& (2 ^ (c.offset_bits + c.shamt) - 1)) >>> c.shamt)
    constructor
    · rw [h1, ← hhit]
      exact user_core.decode_dispatch_irrel default d0 instr
    · intro hv
      have hv2 : (user_core.decode default instr).dispatch ≠ .invalid := by
        rw [user_core.decode_dispatch_irrel default d0 instr]
        exact hv
      have hv' : (c.cache ((pc &&& (2 ^ (c.offset_bits + c.shamt) - 1)) >>>
          c.shamt)).2.dispatch ≠ .invalid := by
        rw [h1, ← hhit]
        exact hv2
      rw [h2 hv', ← hhit]
      exact user_core.decode_valid_irrel default d0 instr hv2
  · exact ⟨rfl, fun _ => rfl⟩

theorem decode_cache.consistent_runFetches (c : decode_cache)
    (fetches : List (Nat × Nat × decode_t)) (hc : c.consistent) :
    (c.runFetches fetches).consistent := by
  induction fetches generalizing c with
  | nil => exact hc
  | cons f rest ih =>
    obtain ⟨pc, instr, d0⟩ := f
    exact ih _ (decode_cache.consistent_decode c pc instr d0 hc)

/-- **C10.** `decode_cache::decode` is semantically transparent: starting
from the constructor-initialized cache (every line holding raw word 0 and an
invalid dispatch), for every sequence of fetch records replayed through the
cache and every further fetch `(pc, instr)` (with arbitrary stale decode
payload `d0`), the cache-assisted decode yields the same dispatch tag as a
direct `user_core::decode` of the same instruction word, and — for
instructions that decode to a valid dispatch — the identical `imm`, `rs1`,
`rs2` and `rd` fields, regardless of cache hits, misses, or index collisions
between different PCs. -/
theorem decode_cache_transparent (offset_bits shamt : Nat)
    (fetches : List (Nat × Nat × decode_t)) (pc instr : Nat) (d0 : decode_t) :
    (((decode_cache.init offset_bits shamt).runFetches fetches).decode pc instr d0).1.dispatch
      = (user_core.decode d0 instr).dispatch
    ∧ ((user_core.decode d0 instr).dispatch ≠ .invalid →
        (((decode_cache.init offset_bits shamt).runFetches fetches).decode pc instr d0).1
          = user_core.decode d0 instr) :=
  decode_cache.decode_agrees _ pc instr d0
    (decode_cache.consistent_runFetches _ fetches
      (decode_cache.consistent_init offset_bits shamt))

/-- Witness for `decode_cache_transparent`: a concrete replay (two fetches,
the second colliding with the first line) followed by a decode of
`addi x1, x0, 1` (`0x00100093`), which is valid, so the cached decode record
equals the direct one. -/
theorem decode_cache_transparent_witness :
    (((decode_cache.init 2 2).runFetches
        [(0, 0x00100093, default), (16, 0x00000013, default)]).decode 0 0x00100093
        default).1 = user_core.decode default 0x00100093 :=
  (decode_cache_transparent 2 2 [(0, 0x00100093, default), (16, 0x00000013, default)]
    0 0x00100093 default).2 (by decide)

/-! ## `user_core::execute` — the division/remainder dispatch cases

Each case is embedded as a function from the two source register values
(`w`-bit patterns `gpr[rs1]`, `gpr[rs2]`) to the retire value written by the
case, mirroring the C++ arithmetic: signed operands go through the
two's-complement view, C++ signed division/remainder truncate toward zero
(`Int.tdiv` / `Int.tmod`), and every store into the `WORD_T` retire value
wraps modulo `2 ^ w`. -/

/-- The `div` case of `user_core::execute`. -/
def execute_div (w x y : Nat) : Nat :=
  let a := toSigned w x
  let b := toSigned w y
  if b = 0 then 2 ^ w - 1
  else if a = -(2 ^ (w - 1) : Int) ∧ b = -1 then ofIntW w a
  else ofIntW w (a.tdiv b)

/-- The `divu` case of `user_core::execute`. -/
def execute_divu (w x y : Nat) : Nat :=
  if y = 0 then 2 ^ w - 1 else x / y

/-- The `rem` case of `user_core::execute`. -/
def execute_rem (w x y : Nat) : Nat :=
  let a := toSigned w x
  let b := toSigned w y
  if b = 0 then ofIntW w a
  else if a = -(2 ^ (w - 1) : Int) ∧ b = -1 then 0
  else ofIntW w (a.tmod b)

/-- The `remu` case of `user_core::execute`. -/
def execute_remu (w x y : Nat) : Nat :=
  if y = 0 then x else x % y

/-- The `divw` case of `user_core::execute` (RV64): operands are the low 32
bits of the registers, viewed as `int32_t`; the `int32_t` result is
sign-extended into the 64-bit retire value. -/
def execute_divw (x y : Nat) : Nat :=
  let a := toSigned 32 (x &&& (2 ^ 32 - 1))
  let b := toSigned 32 (y &&& (2 ^ 32 - 1))
  if b = 0 then 2 ^ 64 - 1
  else if a = -(2 ^ 31 : Int) ∧ b = -1 then ofIntW 64 a
  else ofIntW 64 (a.tdiv b)

/-- The `divuw` case of `user_core::execute` (RV64): unsigned 32-bit
division, the quotient reinterpreted as `int32_t` and sign-extended. -/
def execute_divuw (x y : Nat) : Nat :=
  let a := x &&& (2 ^ 32 - 1)
  let b := y &&& (2 ^ 32 - 1)
  if b = 0 then 2 ^ 64 - 1
  else ofIntW 64 (toSigned 32 (a / b))

/-- The `remw` case of `user_core::execute` (RV64). -/
def execute_remw (x y : Nat) : Nat :=
  let a := toSigned 32 (x &&& (2 ^ 32 - 1))
  let b := toSigned 32 (y &&& (2 ^ 32 - 1))
  if b = 0 then ofIntW 64 a
  else if a = -(2 ^ 31 : Int) ∧ b = -1 then 0
  else ofIntW 64 (a.tmod b)

/-- The `remuw` case of `user_core::execute` (RV64): on a zero divisor the
`uint32_t` dividend is stored (zero-extended); otherwise the remainder is
reinterpreted as `int32_t` and sign-extended. -/
def execute_remuw (x y : Nat) : Nat :=
  let a := x &&& (2 ^ 32 - 1)
  let b := y &&& (2 ^ 32 - 1)
  if b = 0 then a
  else ofIntW 64 (toSigned 32 (a % b))

theorem toSigned_zero (w : Nat) : toSigned w 0 = 0 := by
  unfold toSigned
  rw [if_pos (Nat.pos_pow_of_pos _ (by norm_num))]
  rfl

theorem toSigned_int_min (w : Nat) (hw : 0 < w) :
    toSigned w (2 ^ (w - 1)) = -(2 ^ (w - 1) : Int) := by
  unfold toSigned
  rw [if_neg (lt_irrefl _)]
  have h2 : (2 : Int) ^ w = 2 ^ (w - 1) * 2 := by
    rw [← pow_succ]
    congr 1
    omega
  push_cast
  rw [h2]
  ring

theorem toSigned_neg_one (w : Nat) (hw : 0 < w) :
    toSigned w (2 ^ w - 1) = -1 := by
  unfold toSigned
  have hle : 2 ^ (w - 1) ≤ 2 ^ w - 1 := by
    have h1 : 2 ^ (w - 1) * 2 = 2 ^ w := by
      rw [← pow_succ]
      congr 1
      omega
    have h2 : 0 < 2 ^ (w - 1) := Nat.pos_pow_of_pos _ (by norm_num)
    omega
  rw [if_neg (by omega)]
  have h3 : (1 : Nat) ≤ 2 ^ w := Nat.one_le_two_pow
  push_cast [h3]
  ring

/-- **C9.** Division/remainder edge cases of the RISC-V M extension, as
implemented by the `div`/`divu`/`rem`/`remu` execute cases (for both word
widths `w = 32` and `w = 64`, stated for any positive `w`) and by the RV64
`divw`/`divuw`/`remw`/`remuw` word forms: a zero divisor yields an all-ones
quotient and the dividend as remainder (for the word forms, the 32-bit
dividend sign- resp. zero-extended exactly as the code stores it), and the
signed overflow `INT_MIN / -1` yields quotient `INT_MIN` and remainder 0. -/
theorem div_rem_edge_cases :
    (∀ w x : Nat, 0 < w → x < 2 ^ w →
        execute_div w x 0 = 2 ^ w - 1
      ∧ execute_divu w x 0 = 2 ^ w - 1
      ∧ execute_rem w x 0 = x
      ∧ execute_remu w x 0 = x
      ∧ execute_div w (2 ^ (w - 1)) (2 ^ w - 1) = 2 ^ (w - 1)
      ∧ execute_rem w (2 ^ (w - 1)) (2 ^ w - 1) = 0)
    ∧ (∀ x y : Nat, y &&& (2 ^ 32 - 1) = 0 →
        execute_divw x y = 2 ^ 64 - 1
      ∧ execute_divuw x y = 2 ^ 64 - 1
      ∧ execute_remw x y = ofIntW 64 (toSigned 32 (x &&& (2 ^ 32 - 1)))
      ∧ execute_remuw x y = x &&& (2 ^ 32 - 1))
    ∧ (∀ x y : Nat,
        x &&& (2 ^ 32 - 1) = 0x80000000 → y &&& (2 ^ 32 - 1) = 0xFFFFFFFF →
        execute_divw x y = 0xFFFFFFFF80000000
      ∧ execute_remw x y = 0) := by
  refine ⟨?_, ?_, ?_⟩
  · intro w x hw hx
    have hlt : 2 ^ (w - 1) < 2 ^ w := Nat.pow_lt_pow_right (by norm_num) (by omega)
    have key : ofIntW w (-(2 ^ (w - 1) : Int)) = 2 ^ (w - 1) := by
      have h := ofIntW_toSigned w (2 ^ (w - 1)) hlt
      rwa [toSigned_int_min w hw] at h
    refine ⟨?_, ?_, ?_, ?_, ?_, ?_⟩
    · simp [execute_div, toSigned_zero]
    · simp [execute_divu]
    · simp only [execute_rem, toSigned_zero, if_pos]
      exact ofIntW_toSigned w x hx
    · simp [execute_remu]
    · simp only [execute_div, toSigned_int_min w hw, toSigned_neg_one w hw]
      rw [if_neg (by norm_num), if_pos (by simp)]
      exact key
    · simp only [execute_rem, toSigned_int_min w hw, toSigned_neg_one w hw]
      rw [if_neg (by norm_num), if_pos (by simp)]
  · intro x y hy
    norm_num at hy
    refine ⟨?_, ?_, ?_, ?_⟩
    · simp [execute_divw, hy, toSigned_zero]
    · simp [execute_divuw, hy]
    · simp [execute_remw, hy, toSigned_zero]
    · simp [execute_remuw, hy]
  · intro x y hx hy
    have hxi : toSigned 32 (x &&& (2 ^ 32 - 1)) = -(2 ^ 31 : Int) := by
      rw [hx]
      exact toSigned_int_min 32 (by norm_num)
    have hyi : toSigned 32 (y &&& (2 ^ 32 - 1)) = -1 := by
      rw [hy]
      exact toSigned_neg_one 32 (by norm_num)
    constructor
    · simp only [execute_divw, hxi, hyi]
      rw [if_neg (by norm_num), if_pos (by simp)]
      decide
    · simp only [execute_remw, hxi, hyi]
      rw [if_neg (by norm_num), if_pos (by simp)]

/-- Witness for `div_rem_edge_cases`: concrete RV32 instances — `div`/`rem`
by zero at dividend 5, and the word-form zero-divisor case at registers
`x = 7`, `y = 2 ^ 32` (whose low word is zero). -/
theorem div_rem_edge_cases_witness :
    (execute_div 32 5 0 = 2 ^ 32 - 1 ∧ execute_rem 32 5 0 = 5)
    ∧ execute_remuw 7 (2 ^ 32) = 7 := by
  have h1 := div_rem_edge_cases.1 32 5 (by norm_num) (by norm_num)
  have h2 := div_rem_edge_cases.2.1 7 (2 ^ 32) (by decide)
  exact ⟨⟨h1.1, h1.2.2.1⟩, by simpa using h2.2.2.2⟩

/-! ## `libcpu/riscv/privilege_module.hh` — CSR state, traps, interrupts

The module's fields (current privilege level, the M/S CSR cells, the
structured `status` record and the `satp` record) become one Lean structure;
each member function becomes a function from the module state and the staged
op to the new state and op.  The word width `w` of `WORD_T` is an explicit
parameter; every value stored in a CSR cell is a `w`-bit pattern. -/

/-- `libcpu::riscv::satp_mode_t`. -/
inductive satp_mode_t where
  | bare | sv32 | sv39 | sv48 | sv57 | sv64
  deriving DecidableEq, Repr, Inhabited

/-- The anonymous `status` struct of the privilege module. -/
structure status_t where
  mpp : priv_level_t
  spp : Bool
  mpie : Bool
  spie : Bool
  mie : Bool
  sie : Bool
  deriving DecidableEq, Repr, Inhabited

/-- The anonymous `satp` struct of the privilege module. -/
structure satp_t where
  mode : satp_mode_t
  asid : Nat
  ppn : Nat
  deriving DecidableEq, Repr, Inhabited

/-- The privilege module state. -/
structure privilege_module where
  priv_level : priv_level_t
  mepc : Nat
  mtvec : Nat
  mcause : Nat
  mtval : Nat
  mscratch : Nat
  mie : Nat
  mip : Nat
  medeleg : Nat
  mideleg : Nat
  sepc : Nat
  stvec : Nat
  scause : Nat
  stval : Nat
  sscratch : Nat
  sie : Nat
  sip : Nat
  status : status_t
  satp : satp_t
  deriving DecidableEq, Repr, Inhabited

/-- `libcpu::riscv::exec_result_type_t`. -/
inductive exec_result_type_t where
  | fetch | decode | retire | load | store | trap | sys_op | csr_op
  deriving DecidableEq, Repr, Inhabited

/-- `libcpu::riscv::exec_result_t` with the union payloads flattened: only
the fields of the variant selected by `type` carry meaning, as in the C++
union; the other fields model the union's stale bytes. -/
structure exec_result_t where
  type : exec_result_type_t
  pc : Nat
  next_pc : Nat
  instr : Nat
  decode : decode_t
  retire_rd : Nat
  retire_value : Nat
  load_addr : Nat
  load_width : width_t
  load_sign_extend : Bool
  load_rd : Nat
  store_addr : Nat
  store_width : width_t
  store_data : Nat
  trap_cause : Nat
  trap_tval : Nat
  sys_ecall : Bool
  sys_mret : Bool
  sys_sret : Bool
  csr_addr : Nat
  csr_rd : Nat
  csr_read : Bool
  csr_write : Bool
  csr_set : Bool
  csr_clear : Bool
  csr_value : Nat
  deriving DecidableEq, Repr, Inhabited

/-- `riscv::mcause` constants (exception codes; the interrupt mask bit is
`2 ^ (w - 1)`). -/
def except_illegal_instr : Nat := 2
def except_breakpoint : Nat := 3
def except_env_call_u : Nat := 8
def except_env_call_s : Nat := 9
def except_env_call_m : Nat := 11

/-- The linear scan `for (i = 0; i < word_size; ++i) if ((x >> i) & 1) ...`
used by `handle_interrupt` to find the lowest pending-and-enabled bit:
`fuel` is the number of remaining iterations, `i` the current bit index. -/
def lowestBitAux (x : Nat) : Nat → Nat → Option Nat
  | 0, _ => none
  | fuel + 1, i => if (x >>> i) &&& 1 = 1 then some i else lowestBitAux x fuel (i + 1)

/-- The lowest set bit of `x` among bit positions `0 .. w-1`. -/
def findLowestBit (x w : Nat) : Option Nat := lowestBitAux x w 0

/-- `privilege_module::handle_exception`: push the trap state into the
target privilege level's CSRs (S when delegated and not already in M, M
otherwise), redirect `next_pc` to the target vector base (exceptions are
always direct), and convert the op into a retire with `rd = 0`. -/
def privilege_module.handle_exception (w : Nat) (st : privilege_module)
    (op : exec_result_t) : privilege_module × exec_result_t :=
  let pc := op.pc
  let cause := op.trap_cause
  let tval := op.trap_tval
  let target :=
    if st.priv_level ≠ .m ∧ st.medeleg &&& (1 <<< cause) ≠ 0 then priv_level_t.s
    else priv_level_t.m
  let target_addr :=
    if target = .m then st.mtvec &&& (2 ^ w - 2) else st.stvec &&& (2 ^ w - 2)
  let st' :=
    if target = .m then
      { st with
        mcause := cause, mtval := tval, mepc := pc,
        status := { st.status with
          mpp := st.priv_level, mpie := st.status.mie, mie := false },
        priv_level := .m }
    else
      { st with
        scause := cause, stval := tval, sepc := pc,
        status := { st.status with
          spp := decide (st.priv_level = .s), spie := st.status.sie, sie := false },
        priv_level := .s }
  (st', { op with type := .retire, next_pc := target_addr, retire_rd := 0 })

/-- `privilege_module::handle_interrupt`: when `mie & mip` is pending and
M-mode interrupts are not masked (`status.mie` set or privilege below M),
deliver the lowest pending bit to M; otherwise, symmetrically, deliver
`sie & sip` to S when not in M and `status.sie` is set or privilege is U;
otherwise return state and op unchanged.  `op.next_pc` (the next PC of the
preceding retire) is saved into `mepc`/`sepc` and redirected to the
(possibly vectored) trap vector.  The `none` branches of the bit scan are
unreachable when the CSR cells are `w`-bit patterns, since the scanned word
is then nonzero only if it has a set bit below `w`. -/
def privilege_module.handle_interrupt (w : Nat) (st : privilege_module)
    (op : exec_result_t) : privilege_module × exec_result_t :=
  let pc := op.next_pc
  if (st.mie &&& st.mip) ≠ 0 ∧ (st.status.mie = true ∨ st.priv_level ≠ .m) then
    match findLowestBit (st.mie &&& st.mip) w with
    | none => (st, op)
    | some cause =>
      let vector_base := st.mtvec &&& (2 ^ w - 2)
      let is_vectored := st.mtvec &&& 1 ≠ 0
      let target_addr :=
        if is_vectored then (vector_base + 4 * cause) % 2 ^ w else vector_base
      ({ st with
          mcause := cause ||| 2 ^ (w - 1), mtval := 0, mepc := pc,
          status := { st.status with
            mpp := st.priv_level, mpie := st.status.mie, mie := false },
          priv_level := .m },
       { op with next_pc := target_addr })
  else if (st.sie &&& st.sip) ≠ 0 ∧ st.priv_level ≠ .m ∧
      (st.status.sie = true ∨ st.priv_level = .u) then
    match findLowestBit (st.sie &&& st.sip) w with
    | none => (st, op)
    | some cause =>
      let vector_base := st.stvec &&& (2 ^ w - 2)
      let is_vectored := st.stvec &&& 1 ≠ 0
      let target_addr :=
        if is_vectored then (vector_base + 4 * cause) % 2 ^ w else vector_base
      ({ st with
          scause := cause ||| 2 ^ (w - 1), stval := 0, sepc := pc,
          status := { st.status with
            spp := decide (st.priv_level = .s), spie := st.status.sie, sie := false },
          priv_level := .s },
       { op with next_pc := target_addr })
  else
    (st, op)

/-- `privilege_module::sys_op`: `ecall` traps with the privilege-dependent
environment-call cause; `mret` outside M and `sret` in U trap as illegal
instructions; otherwise `mret`/`sret` pop the status stack and redirect
`next_pc` to `mepc`/`sepc`. -/
def privilege_module.sys_op (st : privilege_module) (op : exec_result_t) :
    privilege_module × exec_result_t :=
  if op.sys_ecall then
    (st,
     { op with
        type := .trap,
        trap_cause :=
          if st.priv_level = .u then except_env_call_u
          else if st.priv_level = .s then except_env_call_s
          else if st.priv_level = .m then except_env_call_m
          else op.trap_cause,
        trap_tval := 0 })
  else if op.sys_mret then
    if st.priv_level ≠ .m then
      (st,
       { op with
          type := .trap, trap_cause := except_illegal_instr, trap_tval := op.instr })
    else
      ({ st with
          priv_level := st.status.mpp,
          status := { st.status with
            mie := st.status.mpie, mpie := true, mpp := .u } },
       { op with type := .retire, retire_rd := 0, next_pc := st.mepc })
  else if op.sys_sret then
    if st.priv_level = .u then
      (st,
       { op with
          type := .trap, trap_cause := except_illegal_instr, trap_tval := op.instr })
    else
      ({ st with
          priv_level := if st.status.spp then .s else .u,
          status := { st.status with
            sie := st.status.spie, spie := true, spp := false } },
       { op with type := .retire, retire_rd := 0, next_pc := st.sepc })
  else
    (st, op)

/-- The `CSRRCS` macro body: the new cell value from a plain
read/write/set/clear CSR operation on a `w`-bit cell. -/
def csrRCS (w : Nat) (write set clear : Bool) (value csr : Nat) : Nat :=
  if write then value
  else if set then csr ||| value
  else if clear then csr &&& (value ^^^ (2 ^ w - 1))
  else csr

/-- The `STATUSRCS` macro body: the new boolean status bit selected by
`mask` from a write/set/clear with operand `value`. -/
def statusRCS (write set clear : Bool) (value mask : Nat) (bit : Bool) : Bool :=
  if write then decide (value &&& mask ≠ 0)
  else if set then (if value &&& mask ≠ 0 then true else bit)
  else if clear then (if value &&& mask ≠ 0 then false else bit)
  else bit

/-- The packed-status contribution of one `STATUSRCS` bit to the retire
value: `mask` when the bit is set, else 0. -/
def statusBitVal (bit : Bool) (mask : Nat) : Nat :=
  if bit then mask else 0

/-- `privilege_module::csr_op`.  The permission checks (read access needs
`priv >= addr[9:8]`, write access additionally needs `addr[11:10] != 0b11`)
record an illegal-instruction trap into the op — but the source then falls
through unconditionally: `op.type = retire` is executed next and the CSR
switch runs regardless, so the recorded trap is dead and the operation
always retires (and still updates the addressed CSR).  The embedding mirrors
this fall-through faithfully. -/
def privilege_module.csr_op (w : Nat) (st : privilege_module)
    (op : exec_result_t) : privilege_module × exec_result_t :=
  let addr := op.csr_addr
  let rd := op.csr_rd
  let read := op.csr_read
  let write := op.csr_write
  let set := op.csr_set
  let clear := op.csr_clear
  let value := op.csr_value
  let read_access := st.priv_level.toNat ≥ ((addr >>> 8) &&& 0x3)
  let op1 :=
    if ¬read_access ∧ read = true then
      { op with type := .trap, trap_cause := except_illegal_instr, trap_tval := op.instr }
    else op
  let write_access := read_access ∧ (addr >>> 10) ≠ 0x3
  let op2 :=
    if ¬write_access ∧ (write = true ∨ set = true ∨ clear = true) then
      { op1 with type := .trap, trap_cause := except_illegal_instr, trap_tval := op.instr }
    else op1
  let op3 := { op2 with type := .retire, retire_rd := rd, retire_value := 0 }
  if addr = 0x301 then -- misa
    (st, { op3 with retire_value :=
      if w = 64 then (2 <<< 62) ||| 0x101100 else 0x40101100 })
  else if addr = 0x341 then -- mepc
    ({ st with mepc := csrRCS w write set clear value st.mepc },
     { op3 with retire_value := st.mepc })
  else if addr = 0x141 then -- sepc
    ({ st with sepc := csrRCS w write set clear value st.sepc },
     { op3 with retire_value := st.sepc })
  else if addr = 0x305 then -- mtvec
    ({ st with mtvec := csrRCS w write set clear value st.mtvec },
     { op3 with retire_value := st.mtvec })
  else if addr = 0x105 then -- stvec
    ({ st with stvec := csrRCS w write set clear value st.stvec },
     { op3 with retire_value := st.stvec })
  else if addr = 0x342 then -- mcause
    ({ st with mcause := csrRCS w write set clear value st.mcause },
     { op3 with retire_value := st.mcause })
  else if addr = 0x142 then -- scause
    ({ st with scause := csrRCS w write set clear value st.scause },
     { op3 with retire_value := st.scause })
  else if addr = 0x343 then -- mtval
    ({ st with mtval := csrRCS w write set clear value st.mtval },
     { op3 with retire_value := st.mtval })
  else if addr = 0x143 then -- stval
    ({ st with stval := csrRCS w write set clear value st.stval },
     { op3 with retire_value := st.stval })
  else if addr = 0x340 then -- mscratch
    ({ st with mscratch := csrRCS w write set clear value st.mscratch },
     { op3 with retire_value := st.mscratch })
  else if addr = 0x140 then -- sscratch
    ({ st with sscratch := csrRCS w write set clear value st.sscratch },
     { op3 with retire_value := st.sscratch })
  else if addr = 0x302 then -- medeleg
    ({ st with medeleg := csrRCS w write set clear value st.medeleg },
     { op3 with retire_value := st.medeleg })
  else if addr = 0x303 then -- mideleg
    ({ st with mideleg := csrRCS w write set clear value st.mideleg },
     { op3 with retire_value := st.mideleg })
  else if addr = 0x304 then -- mie
    ({ st with mie := csrRCS w write set clear value st.mie },
     { op3 with retire_value := st.mie })
  else if addr = 0x104 then -- sie
    ({ st with sie := csrRCS w write set clear value st.sie },
     { op3 with retire_value := st.sie })
  else if addr = 0x344 then -- mip
    ({ st with mip := csrRCS w write set clear value st.mip },
     { op3 with retire_value := st.mip })
  else if addr = 0x144 then -- sip
    ({ st with sip := csrRCS w write set clear value st.sip },
     { op3 with retire_value := st.sip })
  else if addr = 0x300 then -- mstatus
    let mpp0 := st.status.mpp.toNat
    let mpp1 :=
      if write then (value >>> 11) &&& 3
      else if set then mpp0 ||| ((value >>> 11) &&& 3)
      else if clear then mpp0 &&& (((value >>> 11) &&& 3) ^^^ (2 ^ w - 1))
      else mpp0
    let mpp2 := priv_level_t.ofBits mpp1
    let mpp3 := if mpp2 ≠ .u ∧ mpp2 ≠ .s then priv_level_t.m else mpp2
    let rv := (mpp0 <<< 11)
      ||| statusBitVal st.status.spp (2 ^ 8)
      ||| statusBitVal st.status.mpie (2 ^ 7)
      ||| statusBitVal st.status.spie (2 ^ 5)
      ||| statusBitVal st.status.mie (2 ^ 3)
      ||| statusBitVal st.status.sie (2 ^ 1)
    ({ st with status :=
        { mpp := mpp3,
          spp := statusRCS write set clear value (2 ^ 8) st.status.spp,
          mpie := statusRCS write set clear value (2 ^ 7) st.status.mpie,
          spie := statusRCS write set clear value (2 ^ 5) st.status.spie,
          mie := statusRCS write set clear value (2 ^ 3) st.status.mie,
          sie := statusRCS write set clear value (2 ^ 1) st.status.sie } },
     { op3 with retire_value := rv })
  else if addr = 0x100 then -- sstatus
    let rv := statusBitVal st.status.spp (2 ^ 8)
      ||| statusBitVal st.status.spie (2 ^ 5)
      ||| statusBitVal st.status.sie (2 ^ 1)
    ({ st with status :=
        { st.status with
          spp := statusRCS write set clear value (2 ^ 8) st.status.spp,
          spie := statusRCS write set clear value (2 ^ 5) st.status.spie,
          sie := statusRCS write set clear value (2 ^ 1) st.status.sie } },
     { op3 with retire_value := rv })
  else
    (st, op3)

/-- **C2 (code bug).** Evaluation of `csr_op` at a failing input: in U-mode,
a `csrrw`-style operation on `mscratch` (address `0x340`, whose bits [9:8]
demand M-mode) violates the read-permission rule — yet the op ends in the
`retire` variant with `rd` set and the CSR is written, because the source
overwrites the recorded trap with `op.type = retire` and falls through into
the CSR switch.  The claim (violation ⇒ the op ends in the trap variant,
without retiring or modifying the CSR) is what the function's own
documentation promises, and the code does not do it. -/
theorem csr_op_violation_still_retires :
    let st0 : privilege_module := { (default : privilege_module) with priv_level := .u }
    let op0 : exec_result_t :=
      { (default : exec_result_t) with
          type := .csr_op, instr := 0x340290F3, csr_addr := 0x340, csr_rd := 1,
          csr_read := true, csr_write := true, csr_value := 5 }
    (priv_level_t.u.toNat < (0x340 >>> 8) &&& 0x3)
    ∧ (privilege_module.csr_op 32 st0 op0).2.type = .retire
    ∧ (privilege_module.csr_op 32 st0 op0).2.retire_rd = 1
    ∧ (privilege_module.csr_op 32 st0 op0).1.mscratch = 5 := by
  refine ⟨by decide, by decide, by decide, by decide⟩

theorem two_pow_le_of_bit (x c : Nat) (h : (x >>> c) &&& 1 = 1) : 2 ^ c ≤ x := by
  rw [Nat.and_one_is_mod, Nat.shiftRight_eq_div_pow] at h
  have h1 : 1 ≤ x / 2 ^ c := by
    rcases Nat.eq_zero_or_pos (x / 2 ^ c) with h0 | h0
    · rw [h0] at h
      simp at h
    · exact h0
  calc 2 ^ c = 2 ^ c * 1 := by ring
    _ ≤ 2 ^ c * (x / 2 ^ c) := Nat.mul_le_mul_left _ h1
    _ ≤ x := Nat.mul_div_le x (2 ^ c)

theorem lowestBitAux_eq_some (x : Nat) :
    ∀ (fuel i c : Nat), (x >>> c) &&& 1 = 1 →
      (∀ j, j < c → (x >>> j) &&& 1 = 0) →
      i ≤ c → c < i + fuel →
      lowestBitAux x fuel i = some c := by
  intro fuel
  induction fuel with
  | zero => intro i c _ _ _ hc; omega
  | succ fuel ih =>
    intro i c hbit hmin hic hcf
    unfold lowestBitAux
    by_cases hi : (x >>> i) &&& 1 = 1
    · rw [if_pos hi]
      have : i = c := by
        by_contra hne
        have hlt : i < c := by omega
        have := hmin i hlt
        omega
      rw [this]
    · rw [if_neg hi]
      have hne : i ≠ c := fun he => hi (he ▸ hbit)
      exact ih (i + 1) c hbit hmin (by omega) (by omega)

theorem findLowestBit_eq_some (x w c : Nat) (hx : x < 2 ^ w)
    (hbit : (x >>> c) &&& 1 = 1) (hmin : ∀ j, j < c → (x >>> j) &&& 1 = 0) :
    findLowestBit x w = some c := by
  have hcw : c < w := by
    have h1 := two_pow_le_of_bit x c hbit
    by_contra hge
    have h2 : 2 ^ w ≤ 2 ^ c := Nat.pow_le_pow_right (by norm_num) (by omega)
    omega
  exact lowestBitAux_eq_some x w 0 c hbit hmin (Nat.zero_le c) (by omega)

/-- **C3.** Characterization of `handle_interrupt` on an op in the retire
stage, for `w`-bit CSR cells: delivery to M happens exactly under the guard
`mie & mip ≠ 0` and (`status.mie` set or current privilege different from —
i.e. below — M); the delivered cause `c` is the lowest set bit of
`mie & mip`; `mepc` receives the op's `next_pc`; the new `next_pc` is the
`mtvec` base when `mtvec`'s low bit is 0 and `base + 4 * c` (wrapped to `w`
bits) when it is 1.  S-mode delivery via `sie & sip` and `stvec` is
symmetric, guarded by the M-guard failing, privilege below M, and
(`status.sie` set or privilege U).  When no interrupt qualifies, state and
op are returned unchanged. -/
theorem handle_interrupt_delivery (w : Nat) (st : privilege_module)
    (op : exec_result_t)
    (hm : st.mie &&& st.mip < 2 ^ w) (hs : st.sie &&& st.sip < 2 ^ w) :
    (∀ c : Nat,
      (st.mie &&& st.mip) ≠ 0 → (st.status.mie = true ∨ st.priv_level ≠ .m) →
      ((st.mie &&& st.mip) >>> c) &&& 1 = 1 →
      (∀ j, j < c → ((st.mie &&& st.mip) >>> j) &&& 1 = 0) →
      privilege_module.handle_interrupt w st op =
        ({ st with
            mcause := c ||| 2 ^ (w - 1), mtval := 0, mepc := op.next_pc,
            status := { st.status with
              mpp := st.priv_level, mpie := st.status.mie, mie := false },
            priv_level := .m },
         { op with next_pc :=
            if st.mtvec &&& 1 ≠ 0 then
              ((st.mtvec &&& (2 ^ w - 2)) + 4 * c) % 2 ^ w
            else st.mtvec &&& (2 ^ w - 2) }))
    ∧ (∀ c : Nat,
      ¬((st.mie &&& st.mip) ≠ 0 ∧ (st.status.mie = true ∨ st.priv_level ≠ .m)) →
      (st.sie &&& st.sip) ≠ 0 → st.priv_level ≠ .m →
      (st.status.sie = true ∨ st.priv_level = .u) →
      ((st.sie &&& st.sip) >>> c) &&& 1 = 1 →
      (∀ j, j < c → ((st.sie &&& st.sip) >>> j) &&& 1 = 0) →
      privilege_module.handle_interrupt w st op =
        ({ st with
            scause := c ||| 2 ^ (w - 1), stval := 0, sepc := op.next_pc,
            status := { st.status with
              spp := decide (st.priv_level = .s), spie := st.status.sie, sie := false },
            priv_level := .s },
         { op with next_pc :=
            if st.stvec &&& 1 ≠ 0 then
              ((st.stvec &&& (2 ^ w - 2)) + 4 * c) % 2 ^ w
            else st.stvec &&& (2 ^ w - 2) }))
    ∧ (¬((st.mie &&& st.mip) ≠ 0 ∧ (st.status.mie = true ∨ st.priv_level ≠ .m)) →
       ¬((st.sie &&& st.sip) ≠ 0 ∧ st.priv_level ≠ .m ∧
          (st.status.sie = true ∨ st.priv_level = .u)) →
       privilege_module.handle_interrupt w st op = (st, op)) := by
  refine ⟨?_, ?_, ?_⟩
  · intro c hnz hen hbit hmin
    have hfind := findLowestBit_eq_some (st.mie &&& st.mip) w c hm hbit hmin
    unfold privilege_module.handle_interrupt
    rw [if_pos ⟨hnz, hen⟩, hfind]
  · intro c hnm hnz hpm hen hbit hmin
    have hfind := findLowestBit_eq_some (st.sie &&& st.sip) w c hs hbit hmin
    unfold privilege_module.handle_interrupt
    rw [if_neg hnm, if_pos ⟨hnz, hpm, hen⟩, hfind]
  · intro h1 h2
    unfold privilege_module.handle_interrupt
    rw [if_neg h1, if_neg h2]

/-- Witness for `handle_interrupt_delivery`: a concrete RV32 state with
machine-timer interrupt pending and enabled (`mie = mip = 0x80`, bit 7) and
a vectored `mtvec = 0x1001`; `handle_interrupt` delivers to M with cause 7,
saves `next_pc = 0x20` into `mepc`, and jumps to `0x1000 + 4 * 7`. -/
theorem handle_interrupt_delivery_witness :
    let st0 : privilege_module :=
      { (default : privilege_module) with
          priv_level := .m, mie := 0x80, mip := 0x80, mtvec := 0x1001,
          status := { (default : status_t) with mie := true } }
    let op0 : exec_result_t := { (default : exec_result_t) with
      type := .retire, pc := 0x1c, next_pc := 0x20 }
    privilege_module.handle_interrupt 32 st0 op0 =
      ({ st0 with
          mcause := 7 ||| 2 ^ 31, mtval := 0, mepc := 0x20,
          status := { st0.status with mpp := .m, mpie := true, mie := false },
          priv_level := .m },
       { op0 with next_pc := (0x1000 + 4 * 7) % 2 ^ 32 }) := by
  intro st0 op0
  have h := (handle_interrupt_delivery 32 st0 op0 (by decide) (by decide)).1 7
    (by decide) (Or.inl (by decide)) (by decide) (by decide)
  rw [h]
  decide

/-- **C4.** Delivering an exception to M-mode via `handle_exception` (the
non-delegated case: already in M, or the `medeleg` bit of the cause clear)
and then immediately executing `mret` (`sys_op` on an op with the `mret`
flag, no intervening CSR writes) restores the pre-trap privilege level and
the pre-trap `MIE` bit, sets `next_pc` to the PC of the trapping
instruction, and leaves `MPIE = 1` and `MPP = U`. -/
theorem exception_then_mret_roundtrip (w : Nat) (st : privilege_module)
    (op op2 : exec_result_t)
    (hdeliver : st.priv_level = .m ∨ st.medeleg &&& (1 <<< op.trap_cause) = 0)
    (hecall : op2.sys_ecall = false) (hmret : op2.sys_mret = true) :
    (privilege_module.sys_op (privilege_module.handle_exception w st op).1 op2).1.priv_level
      = st.priv_level
    ∧ (privilege_module.sys_op (privilege_module.handle_exception w st op).1 op2).1.status.mie
      = st.status.mie
    ∧ (privilege_module.sys_op (privilege_module.handle_exception w st op).1 op2).1.status.mpie
      = true
    ∧ (privilege_module.sys_op (privilege_module.handle_exception w st op).1 op2).1.status.mpp
      = .u
    ∧ (privilege_module.sys_op (privilege_module.handle_exception w st op).1 op2).2.next_pc
      = op.pc
    ∧ (privilege_module.sys_op (privilege_module.handle_exception w st op).1 op2).2.type
      = .retire := by
  have hcond : ¬(st.priv_level ≠ .m ∧ st.medeleg &&& (1 <<< op.trap_cause) ≠ 0) := by
    rcases hdeliver with h | h
    · intro hc
      exact hc.1 h
    · intro hc
      exact hc.2 h
  have hst1 : (privilege_module.handle_exception w st op).1 =
      { st with
        mcause := op.trap_cause, mtval := op.trap_tval, mepc := op.pc,
        status := { st.status with
          mpp := st.priv_level, mpie := st.status.mie, mie := false },
        priv_level := .m } := by
    unfold privilege_module.handle_exception
    dsimp only
    rw [if_neg hcond]
    simp
  rw [hst1]
  unfold privilege_module.sys_op
  rw [hecall, hmret]
  simp

/-- Witness for `exception_then_mret_roundtrip`: a concrete RV32 state in
S-mode with `MIE` set takes a (non-delegated) exception at `pc = 0x100`;
`mret` right after restores privilege S, `MIE = true`, returns to `0x100`,
and leaves `MPIE = 1`, `MPP = U`. -/
theorem exception_then_mret_roundtrip_witness :
    let st0 : privilege_module :=
      { (default : privilege_module) with
          priv_level := .s, mtvec := 0x2000,
          status := { (default : status_t) with mie := true } }
    let op0 : exec_result_t := { (default : exec_result_t) with
      type := .trap, pc := 0x100, trap_cause := 2, trap_tval := 0x100 }
    let op2 : exec_result_t := { (default : exec_result_t) with
      type := .sys_op, sys_mret := true }
    (privilege_module.sys_op (privilege_module.handle_exception 32 st0 op0).1 op2).1.priv_level
      = .s
    ∧ (privilege_module.sys_op (privilege_module.handle_exception 32 st0 op0).1 op2).1.status.mie
      = true
    ∧ (privilege_module.sys_op (privilege_module.handle_exception 32 st0 op0).1 op2).2.next_pc
      = 0x100 := by
  intro st0 op0 op2
  have h := exception_then_mret_roundtrip 32 st0 op0 op2 (Or.inr (by decide))
    (by decide) (by decide)
  exact ⟨h.1, h.2.1, h.2.2.2.2.1⟩

/-! ## `user_core` register file and the commit step of
`riscv_cpu_system::next_instruction`

The general-purpose register file is the only unprivileged state the façade
mutates; within `next_instruction` the single write to it is the final
commit (source lines 168-177): a retire with `rd != 0` stores the value,
a retire with `rd = 0` is discarded. -/

/-- The `user_core` register file: 32 `WORD_T` cells. -/
structure user_core where
  gpr : List Nat
  deriving DecidableEq, Repr

/-- `user_core::reset`: zero every register. -/
def user_core.reset : user_core := ⟨List.replicate 32 0⟩

/-- The writeback of `riscv_cpu_system::next_instruction`: commit a retire
record `(rd, value)` — discarded when `rd = 0`. -/
def commit_retire (core : user_core) (rd value : Nat) : user_core :=
  if rd ≠ 0 then ⟨core.gpr.set rd value⟩ else core

/-- Commit a whole instruction sequence's retire records in order. -/
def commit_run (core : user_core) (retires : List (Nat × Nat)) : user_core :=
  retires.foldl (fun c r => commit_retire c r.1 r.2) core

/-- **C5.** Register 0 is hard-wired zero: it is zero right after
`user_core::reset`; a retire whose destination index is 0 is discarded at
commit and never modifies the register file; and after any sequence of
commits performed by `next_instruction`'s writeback starting from reset,
register 0 still reads 0. -/
theorem gpr_zero_invariant :
    user_core.reset.gpr.getD 0 0 = 0
    ∧ (∀ (core : user_core) (rd value : Nat), rd = 0 →
        commit_retire core rd value = core)
    ∧ (∀ retires : List (Nat × Nat),
        (commit_run user_core.reset retires).gpr.getD 0 0 = 0) := by
  refine ⟨rfl, ?_, ?_⟩
  · intro core rd value hrd
    simp [commit_retire, hrd]
  · intro retires
    have key : ∀ (core : user_core) (rd value : Nat),
        core.gpr.getD 0 0 = 0 → (commit_retire core rd value).gpr.getD 0 0 = 0 := by
      intro core rd value h
      unfold commit_retire
      split
      · rename_i hrd
        simpa [List.getD_eq_getElem?_getD, List.getElem?_set_ne hrd] using h
      · exact h
    have : ∀ (rs : List (Nat × Nat)) (core : user_core),
        core.gpr.getD 0 0 = 0 → (commit_run core rs).gpr.getD 0 0 = 0 := by
      intro rs
      induction rs with
      | nil => intro core h; exact h
      | cons r rest ih =>
        intro core h
        exact ih (commit_retire core r.1 r.2) (key core r.1 r.2 h)
    exact this retires user_core.reset rfl

/-- Witness for `gpr_zero_invariant`: a concrete retire to register 0 is
discarded — the register file is returned unchanged. -/
theorem gpr_zero_invariant_witness :
    commit_retire user_core.reset 0 99 = user_core.reset :=
  gpr_zero_invariant.2.1 user_core.reset 0 99 rfl

/-! ## `libcpu/event.hh` and `libcpu/difftest.hh` — the differential tester

The tester consults only these parts of its two child CPUs: the child's
event ring buffer (and whether the C++ pointer to it is null), its stopped
flag, and its last trap.  Stepping a child (`dut->next_cycle()`,
`ref->next_instruction()`) is an arbitrary function on that observable
state.  The C++ `while` loop that steps REF until it has produced at least
as many commit events as DUT can diverge (a REF step may commit nothing and
not stop); the embedding bounds it with an explicit `fuel` iteration count
and otherwise follows the source line by line. -/

/-- `libcpu::event_type_t`. -/
inductive event_type_t where
  | issue | reg_write | load | store | call | call_ret | trap | trap_ret
  | diff_error | n_event_type
  deriving DecidableEq, Repr, Inhabited

/-- `libcpu::event_t`. -/
structure event_t where
  type : event_type_t
  pc : Nat
  val1 : Nat
  val2 : Nat
  deriving DecidableEq, Repr, Inhabited

/-- The observable state of a child CPU. -/
structure child_cpu where
  event_buffer : ringbuffer event_t
  has_event_buffer : Bool
  is_stopped : Bool
  last_trap : Option Nat
  deriving Repr

/-- The `simple_difftest` state: the two children, the tester's own event
buffer (inherited from `abstract_cpu`), the two read cursors, and the
latched error flag. -/
structure simple_difftest where
  dut : child_cpu
  ref : child_cpu
  event_buffer : ringbuffer event_t
  dut_buffer_index : Nat
  ref_buffer_index : Nat
  difftest_error : Bool
  deriving Repr

/-- `abstract_difftest::get_trap`: the source delegates to the REF child. -/
def simple_difftest.get_trap (s : simple_difftest) : Option Nat :=
  s.ref.last_trap

/-- `abstract_difftest::stopped`: true when the diff error is latched, or
when either child has stopped (a one-sided stop only logs a warning). -/
def simple_difftest.stopped (s : simple_difftest) : Bool :=
  if s.difftest_error then true
  else if s.ref.is_stopped then true
  else if s.dut.is_stopped then true
  else false

/-- The event filter of `next_cycle`'s `pull_events` lambda: only register
writes, traps and trap returns are compared. -/
def is_commit_event (e : event_t) : Bool :=
  e.type == .reg_write || e.type == .trap || e.type == .trap_ret

/-- The `pull_events` lambda: collect the commit events appended to `buffer`
since index `b`, and return the new cursor (`lastindex`). -/
def pull_events (buffer : ringbuffer event_t) (b : Nat) : List event_t × Nat :=
  (((List.range (buffer.lastindex - b)).map (fun i => buffer.get (b + i))).filter
      is_commit_event,
   buffer.lastindex)

/-- The REF catch-up `while` loop of `next_cycle`, with an explicit
iteration bound `fuel`: while REF's collected commit events are fewer than
DUT's and REF is not stopped, step REF and pull its new commit events. -/
def ref_catchup (refStep : child_cpu → child_cpu) (dutN : Nat) :
    Nat → child_cpu → Nat → List event_t → child_cpu × Nat × List event_t
  | 0, ref, ridx, evs => (ref, ridx, evs)
  | fuel + 1, ref, ridx, evs =>
    if evs.length < dutN ∧ ref.is_stopped = false then
      let ref' := refStep ref
      let pulled := pull_events ref'.event_buffer ridx
      ref_catchup refStep dutN fuel ref' pulled.2 (evs ++ pulled.1)
    else (ref, ridx, evs)

/-- `simple_difftest::next_cycle` (also `next_instruction`): panic-latch
when either child's event buffer is null; otherwise step DUT one cycle,
collect its new commit events, step REF until it caught up (or stopped),
then latch `difftest_error` on a length difference or any element-wise
mismatch.  Nothing is ever appended to any event buffer by the tester
itself: mismatches are only reported on the standard error stream. -/
def simple_difftest.next_cycle (dutStep refStep : child_cpu → child_cpu)
    (fuel : Nat) (s : simple_difftest) : simple_difftest :=
  if s.dut.has_event_buffer = false ∨ s.ref.has_event_buffer = false then
    { s with difftest_error := true }
  else
    let dut' := dutStep s.dut
    let dpulled := pull_events dut'.event_buffer s.dut_buffer_index
    let dut_events := dpulled.1
    let looped := ref_catchup refStep dut_events.length fuel s.ref s.ref_buffer_index []
    let ref_events := looped.2.2
    let e1 := if dut_events.length ≠ ref_events.length then true else s.difftest_error
    let e2 := if e1 = false then (if dut_events ≠ ref_events then true else e1) else e1
    { s with
        dut := dut', ref := looped.1,
        dut_buffer_index := dpulled.2, ref_buffer_index := looped.2.1,
        difftest_error := e2 }

/-- **C7 (code bug).** Evaluation of `simple_difftest::next_cycle` at a
mismatching commit: DUT commits `RegWrite{pc=0x80000010, rd=5, v=0x11}`
while REF commits `RegWrite{pc=0x80000010, rd=5, v=0x10}`.  The tester
latches `difftest_error` and `stopped()` becomes true — but no `diff_error`
event is appended anywhere: the tester's own event buffer is unchanged and
neither child's buffer contains a `diff_error` event (the mismatch is only
printed to the standard error stream), contrary to the claim and to the
source's own documentation of `get_difftest_error` ("the actual content of
the error is put into the event buffer as an event"). -/
theorem next_cycle_mismatch_appends_no_event :
    let dutStep : child_cpu → child_cpu := fun c =>
      { c with event_buffer := c.event_buffer.push_back ⟨.reg_write, 0x80000010, 5, 0x11⟩ }
    let refStep : child_cpu → child_cpu := fun c =>
      { c with event_buffer := c.event_buffer.push_back ⟨.reg_write, 0x80000010, 5, 0x10⟩ }
    let child0 : child_cpu :=
      { event_buffer := ringbuffer.init 8, has_event_buffer := true,
        is_stopped := false, last_trap := none }
    let s0 : simple_difftest :=
      { dut := child0, ref := child0, event_buffer := ringbuffer.init 8,
        dut_buffer_index := 0, ref_buffer_index := 0, difftest_error := false }
    let s1 := simple_difftest.next_cycle dutStep refStep 1 s0
    s1.difftest_error = true
    ∧ s1.stopped = true
    ∧ s1.event_buffer = s0.event_buffer
    ∧ s1.dut.event_buffer.buffer.all (fun e => e.type != .diff_error) = true
    ∧ s1.ref.event_buffer.buffer.all (fun e => e.type != .diff_error) = true := by
  refine ⟨by decide, by decide, by decide, by decide, by decide⟩

/-- **C8, counterexample.** A differential-tester state in which the DUT
child reports trap cause 3 and the REF child reports none: `get_trap()`
returns `none` — not `dut->get_trap()`.  This refutes "get_trap() returns
exactly dut->get_trap()". -/
theorem get_trap_differs_from_dut :
    let child0 : child_cpu :=
      { event_buffer := ringbuffer.init 1, has_event_buffer := true,
        is_stopped := false, last_trap := none }
    let s : simple_difftest :=
      { dut := { child0 with last_trap := some 3 }, ref := child0,
        event_buffer := ringbuffer.init 1,
        dut_buffer_index := 0, ref_buffer_index := 0, difftest_error := false }
    simple_difftest.get_trap s ≠ s.dut.last_trap := by
  decide

/-- **C8, amended.** The read-only accessor `get_trap` delegates to the REF
child, not the DUT: `get_trap()` returns exactly `ref->get_trap()`, and it
agrees with `dut->get_trap()` only when the two children agree. -/
theorem get_trap_delegates_to_ref (s : simple_difftest) :
    simple_difftest.get_trap s = s.ref.last_trap
    ∧ (simple_difftest.get_trap s = s.dut.last_trap ↔
        s.ref.last_trap = s.dut.last_trap) :=
  ⟨rfl, Iff.rfl⟩
